import Mathlib

/-!
Verification of the ValkyrieUtils sealed-archive subsystem
(`Package.py`, `Crypto.py`, `Compressor.py`).

Byte strings are modelled as `List Nat` with each entry `< 256`.
External libraries (PyCryptodome's AES, the compression codecs,
`pickle`) are modelled as parameters constrained by their documented
interface laws; everything written in the repository itself
(dispatch, header packing, the package pipeline) is translated
definition-by-definition from the Python source.
-/

set_option maxHeartbeats 1000000
set_option maxRecDepth 16384

namespace Valkyrie

/-- Decidable equality for `Except`, computed by cases. -/
instance {ε α : Type} [DecidableEq ε] [DecidableEq α] : DecidableEq (Except ε α) := fun a b =>
  match a, b with
  | .ok x, .ok y =>
    if h : x = y then .isTrue (by rw [h]) else .isFalse (fun hc => h (Except.ok.inj hc))
  | .error x, .error y =>
    if h : x = y then .isTrue (by rw [h]) else .isFalse (fun hc => h (Except.error.inj hc))
  | .ok _, .error _ => .isFalse (fun hc => Except.noConfusion hc)
  | .error _, .ok _ => .isFalse (fun hc => Except.noConfusion hc)

/-- A byte string: list of byte values. -/
abbrev Bytes := List Nat

/-- Well-formedness: every entry is an actual byte. -/
def WF (bs : Bytes) : Prop := ∀ b ∈ bs, b < 256

instance : DecidablePred WF := fun bs => List.decidableBAll _ bs

/- ---------------------------------------------------------------
   Hex encoding: models Python `bytes.hex()` (lowercase digits) and
   `bytes.fromhex` as used by `ValkyrieCrypto`.
   --------------------------------------------------------------- -/

/-- Code of the lowercase hex digit for a nibble, as produced by `bytes.hex()`. -/
def hexDigit (n : Nat) : Nat := if n < 10 then 48 + n else 87 + n

/-- `bytes.hex()` on a single byte: two lowercase hex digit codes. -/
def byteToHex (b : Nat) : List Nat := [hexDigit (b / 16), hexDigit (b % 16)]

/-- `bytes.hex()`: each byte becomes two hex digit characters. -/
def bytesToHex (bs : Bytes) : List Nat := bs.flatMap byteToHex

/-- Value of one hex digit character, as accepted by `bytes.fromhex`. -/
def hexVal (c : Nat) : Option Nat :=
  if 48 ≤ c ∧ c ≤ 57 then some (c - 48)
  else if 97 ≤ c ∧ c ≤ 102 then some (c - 87)
  else if 65 ≤ c ∧ c ≤ 70 then some (c - 55)
  else none

/-- `bytes.fromhex`: pairs of hex digits back to bytes; fails on odd length
or a non-hex character (Python raises `ValueError`). -/
def hexToBytes : List Nat → Option Bytes
  | [] => some []
  | [_] => none
  | c1 :: c2 :: rest => do
    let h ← hexVal c1
    let l ← hexVal c2
    let tl ← hexToBytes rest
    pure ((16 * h + l) :: tl)

/- ---------------------------------------------------------------
   UTF-8 validity: models strict `bytes.decode('utf-8')`
   succeeding (used by `decrypt_data`'s try/except and by header
   field `.decode()`), per RFC 3629: no overlongs, no surrogates,
   nothing above U+10FFFF.
   --------------------------------------------------------------- -/

/-- A UTF-8 continuation byte. -/
def isCont (b : Nat) : Bool := 128 ≤ b && b ≤ 191

/-- Strict UTF-8 validity of a byte string, as checked by
`bytes.decode('utf-8')`. -/
def validUtf8 : List Nat → Bool
  | [] => true
  | b :: rest =>
    if b ≤ 0x7F then validUtf8 rest
    else
      match rest with
      | [] => false
      | c1 :: rest1 =>
        if 0xC2 ≤ b && b ≤ 0xDF then isCont c1 && validUtf8 rest1
        else
          match rest1 with
          | [] => false
          | c2 :: rest2 =>
            if b = 0xE0 then
              (0xA0 ≤ c1 && c1 ≤ 0xBF) && isCont c2 && validUtf8 rest2
            else if (0xE1 ≤ b && b ≤ 0xEC) || b = 0xEE || b = 0xEF then
              isCont c1 && isCont c2 && validUtf8 rest2
            else if b = 0xED then
              (0x80 ≤ c1 && c1 ≤ 0x9F) && isCont c2 && validUtf8 rest2
            else
              match rest2 with
              | [] => false
              | c3 :: rest3 =>
                if b = 0xF0 then
                  (0x90 ≤ c1 && c1 ≤ 0xBF) && isCont c2 && isCont c3 && validUtf8 rest3
                else if 0xF1 ≤ b && b ≤ 0xF3 then
                  isCont c1 && isCont c2 && isCont c3 && validUtf8 rest3
                else if b = 0xF4 then
                  (0x80 ≤ c1 && c1 ≤ 0x8F) && isCont c2 && isCont c3 && validUtf8 rest3
                else false

/- ---------------------------------------------------------------
   Text encoding: models Python `str.encode('utf-8')`.  A Python
   `str` is represented by its list of code points (`List Char`
   through Lean's `String.data`).
   --------------------------------------------------------------- -/

/-- UTF-8 encoding of one code point, as in `str.encode('utf-8')`. -/
def charUtf8 (c : Nat) : List Nat :=
  if c < 0x80 then [c]
  else if c < 0x800 then [0xC0 + c / 64, 0x80 + c % 64]
  else if c < 0x10000 then [0xE0 + c / 4096, 0x80 + c / 64 % 64, 0x80 + c % 64]
  else [0xF0 + c / 262144, 0x80 + c / 4096 % 64, 0x80 + c / 64 % 64, 0x80 + c % 64]

/-- `str.encode('utf-8')` on a list of code points. -/
def utf8chars (l : List Char) : Bytes := l.flatMap (fun c => charUtf8 c.toNat)

/-- `str.encode('utf-8')` on a Lean string literal standing for a Python `str`. -/
def strBytes (s : String) : Bytes := utf8chars s.data

/- ---------------------------------------------------------------
   `struct` primitives for the header format '16s22sI16s17sI7sII5s'
   (native byte order and alignment on the x86-64 platform the
   repository targets: little-endian `I`, 4-byte alignment pads).
   --------------------------------------------------------------- -/

/-- `struct.pack` of one `'<w>s'` field: the value is TRUNCATED to
the field width if too long, and zero-padded if too short (CPython's
documented behavior for the `s` format — no error is raised). -/
def packS (w : Nat) (bs : Bytes) : Bytes := bs.take w ++ List.replicate (w - bs.length) 0

/-- The four little-endian bytes of a `u32` value. -/
def packU32R (n : Nat) : Bytes := [n % 256, n / 256 % 256, n / 65536 % 256, n / 16777216 % 256]

/-- `struct.pack` of one native `I` field (little-endian `u32`);
`struct.error` if the value does not fit. -/
def packU32 (n : Nat) : Option Bytes :=
  if n < 2 ^ 32 then some (packU32R n) else none

/-- `struct.unpack` of one native `I` field. -/
def unpackU32 (bs : Bytes) : Nat :=
  match bs with
  | [b0, b1, b2, b3] => b0 + 256 * b1 + 65536 * b2 + 16777216 * b3
  | _ => 0

/-- `str.rstrip('\x00')` on the decoded field (NUL strips at byte level
coincide with NUL strips at character level). -/
def rstripZeros (bs : Bytes) : Bytes := (bs.reverse.dropWhile (· = 0)).reverse

/-- `head[i].decode().rstrip('\x00')`: strict UTF-8 decode of the fixed
field (raising on invalid bytes), then trailing-NUL strip.  The decoded
`str` is represented by its UTF-8 bytes. -/
def decodeStrField (f : Bytes) : Option Bytes :=
  if validUtf8 f then some (rstripZeros f) else none

/- ---------------------------------------------------------------
   `vpk_path.split("/")[-1].replace(".vpk", "")`
   --------------------------------------------------------------- -/

/-- Python `str.split("/")`. -/
def splitSlash (s : List Char) : List (List Char) :=
  s.foldr
    (fun c acc =>
      match acc with
      | cur :: rest => if c = '/' then [] :: cur :: rest else (c :: cur) :: rest
      | [] => [[c]])
    [[]]

/-- Python `str.replace(".vpk", "")`: left-to-right removal of every
non-overlapping occurrence. -/
def stripVpk : List Char → List Char
  | '.' :: 'v' :: 'p' :: 'k' :: rest => stripVpk rest
  | c :: rest => c :: stripVpk rest
  | [] => []

/-- `vpk_path.split("/")[-1].replace(".vpk", "")` from `_create_header`. -/
def pathFilename (p : String) : List Char :=
  stripVpk ((splitSlash p.data).getLastD [])

/- ---------------------------------------------------------------
   Crypto.py — ValkyrieCrypto
   --------------------------------------------------------------- -/

/-- Mode constant `AES_GCM = 0`. -/
def AES_GCM : Nat := 0
/-- Mode constant `AES_CTR = 1`. -/
def AES_CTR : Nat := 1
/-- Mode constant `AES_CBC = 2`. -/
def AES_CBC : Nat := 2

/-- `MODES_D = {'AES-GCM': AES_GCM, 'AES-CTR': AES_CTR, 'AES-CBC': AES_CBC}`;
a missing key raises `KeyError`. -/
def MODES_D (s : String) : Option Nat :=
  if s = "AES-GCM" then some AES_GCM
  else if s = "AES-CTR" then some AES_CTR
  else if s = "AES-CBC" then some AES_CBC
  else none

/-- The dict returned by `encrypt_data`: hex-encoded ciphertext, optional
hex-encoded tag (present only in GCM mode), hex-encoded nonce/IV.  The
fields hold the character codes of the hex strings. -/
structure Envelope where
  ciphertext : List Nat
  tag : Option (List Nat)
  iv : List Nat
  deriving DecidableEq

/-- The external AES primitive (PyCryptodome `Cryptodome.Cipher.AES`),
abstracted: raw GCM encrypt / tag / decrypt, CTR encrypt/decrypt, and
CBC encrypt/decrypt, each taking key and nonce/IV.  `gcmT` is the
authentication tag over the ciphertext, so `encrypt_and_digest` is
`fun k n p => (gcmE k n p, gcmT k n (gcmE k n p))` and
`decrypt_and_verify` checks the tag before releasing `gcmD`. -/
structure AesPrim where
  gcmE : Bytes → Bytes → Bytes → Bytes
  gcmT : Bytes → Bytes → Bytes → Bytes
  gcmD : Bytes → Bytes → Bytes → Bytes
  ctrE : Bytes → Bytes → Bytes → Bytes
  ctrD : Bytes → Bytes → Bytes → Bytes
  cbcE : Bytes → Bytes → Bytes → Bytes
  cbcD : Bytes → Bytes → Bytes → Bytes

/-- The documented interface laws of the AES primitive: decryption with
the same key and nonce inverts encryption, outputs are byte strings, and
CBC preserves the (block-aligned) length. -/
structure PrimLaws (P : AesPrim) : Prop where
  gcm_dec : ∀ k n p, P.gcmD k n (P.gcmE k n p) = p
  ctr_dec : ∀ k n p, P.ctrD k n (P.ctrE k n p) = p
  cbc_dec : ∀ k n p, P.cbcD k n (P.cbcE k n p) = p
  gcmE_wf : ∀ k n p, WF p → WF (P.gcmE k n p)
  gcmT_wf : ∀ k n c, WF (P.gcmT k n c)
  ctrE_wf : ∀ k n p, WF p → WF (P.ctrE k n p)
  cbcE_wf : ∀ k n p, WF p → WF (P.cbcE k n p)
  cbcE_len : ∀ k n p, (P.cbcE k n p).length = p.length

/-- The value `decrypt_data` hands back: a Python `str` (kept as its
UTF-8 bytes) when `pt_bytes.decode('utf-8')` succeeded, the raw bytes
otherwise. -/
inductive PyData where
  | str (utf8 : Bytes)
  | bytes (bs : Bytes)
  deriving DecidableEq

/-- Underlying plaintext bytes of a `decrypt_data` result. -/
def PyData.toBytes : PyData → Bytes
  | .str b => b
  | .bytes b => b

/-- `try: return pt_bytes.decode('utf-8') except UnicodeDecodeError: return pt_bytes`. -/
def pyReturn (pt : Bytes) : PyData :=
  if validUtf8 pt then .str pt else .bytes pt

/-- `ValkyrieCrypto.encrypt_data(key, data, mode)`.  The fresh random
nonce/IV drawn inside `AES.new` is made an explicit argument `nonce`.
`cipher.encrypt` in CBC mode (PyCryptodome) raises `ValueError` unless
the data length is a multiple of the 16-byte block; an unknown mode
raises `ValueError`. -/
def encrypt_data (P : AesPrim) (key nonce : Bytes) (data : Bytes) (mode : Nat) :
    Option Envelope :=
  if mode = AES_GCM then
    let ct := P.gcmE key nonce data
    some { ciphertext := bytesToHex ct,
           tag := some (bytesToHex (P.gcmT key nonce ct)),
           iv := bytesToHex nonce }
  else if mode = AES_CTR then
    some { ciphertext := bytesToHex (P.ctrE key nonce data),
           tag := none,
           iv := bytesToHex nonce }
  else if mode = AES_CBC then
    if data.length % 16 = 0 then
      some { ciphertext := bytesToHex (P.cbcE key nonce data),
             tag := none,
             iv := bytesToHex nonce }
    else none
  else none

/-- `ValkyrieCrypto.decrypt_data(key, data, mode)`: hex-decode the fields
(`bytes.fromhex` raising on malformed hex), in GCM mode verify the tag
(`decrypt_and_verify` raising `ValueError` on mismatch), in CBC mode
`cipher.decrypt` raises unless the ciphertext is block-aligned, then
return the plaintext as `str` when UTF-8-decodable else as `bytes`. -/
def decrypt_data (P : AesPrim) (key : Bytes) (data : Envelope) (mode : Nat) :
    Option PyData :=
  if mode = AES_GCM then do
    let iv ← hexToBytes data.iv
    let ct ← hexToBytes data.ciphertext
    let tagHex ← data.tag
    let tag ← hexToBytes tagHex
    if tag = P.gcmT key iv ct then pure (pyReturn (P.gcmD key iv ct)) else none
  else if mode = AES_CTR then do
    let iv ← hexToBytes data.iv
    let ct ← hexToBytes data.ciphertext
    pure (pyReturn (P.ctrD key iv ct))
  else if mode = AES_CBC then do
    let iv ← hexToBytes data.iv
    let ct ← hexToBytes data.ciphertext
    if ct.length % 16 = 0 then pure (pyReturn (P.cbcD key iv ct)) else none
  else none

/-- Flip bit `j` of byte `i` of a byte string. -/
def flipBytes (bs : Bytes) (i j : Nat) : Bytes :=
  bs.set i ((bs.getD i 0) ^^^ 2 ^ j)

/- ---------------------------------------------------------------
   Compressor.py — ValkyrieCompressor
   --------------------------------------------------------------- -/

/-- One external compression library (`gzip`, `bz2`, `lzma`, `lz4.frame`,
`zstandard`): a compress function and a decompress function that may
raise on a corrupt stream. -/
structure Codec where
  comp : Bytes → Bytes
  decomp : Bytes → Option Bytes

/-- The five external codec libraries imported by `Compressor.py`. -/
structure ExtCodecs where
  gzip : Codec
  bzip2 : Codec
  lzma : Codec
  lz4 : Codec
  zstd : Codec

/-- Documented library contract: each codec's decompress inverts its
compress on every input. -/
structure CodecLaws (C : ExtCodecs) : Prop where
  gzip_rt : ∀ b, C.gzip.decomp (C.gzip.comp b) = some b
  bzip2_rt : ∀ b, C.bzip2.decomp (C.bzip2.comp b) = some b
  lzma_rt : ∀ b, C.lzma.decomp (C.lzma.comp b) = some b
  lz4_rt : ∀ b, C.lz4.decomp (C.lz4.comp b) = some b
  zstd_rt : ∀ b, C.zstd.decomp (C.zstd.comp b) = some b

/-- `ValkyrieCompressor.deflate(raw_data, compression_mode)`: dispatch on
the mode string; `'none'` is the identity passthrough; an unknown mode
raises `ValueError`.  (The Python `None` mode behaves as `'none'`.) -/
def deflate (C : ExtCodecs) (raw_data : Bytes) (compression_mode : String) : Option Bytes :=
  if compression_mode = "gzip" then some (C.gzip.comp raw_data)
  else if compression_mode = "bzip2" then some (C.bzip2.comp raw_data)
  else if compression_mode = "lzma" then some (C.lzma.comp raw_data)
  else if compression_mode = "lz4" then some (C.lz4.comp raw_data)
  else if compression_mode = "zstd" then some (C.zstd.comp raw_data)
  else if compression_mode = "none" then some raw_data
  else none

/-- `ValkyrieCompressor.inflate(compressed_data, compression_mode)`. -/
def inflate (C : ExtCodecs) (compressed_data : Bytes) (compression_mode : String) : Option Bytes :=
  if compression_mode = "gzip" then C.gzip.decomp compressed_data
  else if compression_mode = "bzip2" then C.bzip2.decomp compressed_data
  else if compression_mode = "lzma" then C.lzma.decomp compressed_data
  else if compression_mode = "lz4" then C.lz4.decomp compressed_data
  else if compression_mode = "zstd" then C.zstd.decomp compressed_data
  else if compression_mode = "none" then some compressed_data
  else none

/- ---------------------------------------------------------------
   pickle — external serializer used by Package.py
   --------------------------------------------------------------- -/

/-- A `BlobSet`: the `byte_dict` mapping relative paths to raw bytes
(a Python dict in insertion order). -/
abbrev BlobSet := List (String × Bytes)

/-- The external `pickle` module as used by `Package.py`: it serializes
the `byte_dict` (`dumpB`/`loadB`) and the envelope dict
(`dumpE`/`loadE`). -/
structure PickleImpl where
  dumpB : BlobSet → Bytes
  loadB : Bytes → Option BlobSet
  dumpE : Envelope → Bytes
  loadE : Bytes → Option Envelope

/-- Documented contract of `pickle`: `loads` inverts `dumps`; `dumps`
emits bytes; its output begins with the protocol opcode `0x80`
(protocol ≥ 2), hence is never valid UTF-8. -/
structure PickleLaws (PK : PickleImpl) : Prop where
  loadB_dumpB : ∀ d, PK.loadB (PK.dumpB d) = some d
  loadE_dumpE : ∀ e, PK.loadE (PK.dumpE e) = some e
  dumpB_wf : ∀ d, WF (PK.dumpB d)
  dumpB_not_utf8 : ∀ d, validUtf8 (PK.dumpB d) = false

/- ---------------------------------------------------------------
   Package.py — ValkyriePackage
   --------------------------------------------------------------- -/

/-- The mutable attributes of a `ValkyriePackage` instance; `__init__`
always sets the non-key fields to the listed constants. -/
structure PkgConfig where
  argon_key : Bytes
  version : Nat := 2
  compression : String := "zstd"
  encryption : String := "AES-GCM"
  author : String := "Valky Fischer"

/-- A freshly constructed `ValkyriePackage(argon_key)`. -/
def defCfg (k : Bytes) : PkgConfig := { argon_key := k }

/-- The external collaborators of the pipeline. -/
structure Exts where
  prim : AesPrim
  codecs : ExtCodecs
  pk : PickleImpl

/-- The decoded header dict returned by `info` (string fields already
`.decode().rstrip('\x00')`-processed, kept as UTF-8 bytes). -/
structure HeaderFields where
  filename : Bytes
  fileinfo : Bytes
  filesize : Nat
  author : Bytes
  copyright : Bytes
  timestamp : Nat
  encryption : Bytes
  key_length : Nat
  version : Nat
  compression : Bytes
  deriving DecidableEq

/-- The raw values handed to `struct.pack` in `_create_header`. -/
structure RawHeader where
  filename : Bytes
  fileinfo : Bytes
  filesize : Nat
  author : Bytes
  copyright : Bytes
  timestamp : Nat
  encryption : Bytes
  key_length : Nat
  version : Nat
  compression : Bytes

/-- `struct.calcsize('16s22sI16s17sI7sII5s')` with native (x86-64)
alignment: 16+22+2+4+16+17+3+4+7+1+4+4+5. -/
def headerSize : Nat := 105

/-- The byte image of a packed header (fixed-width string fields
truncated/zero-padded, little-endian `u32`s, zero alignment pads). -/
def hbOf (r : RawHeader) : Bytes :=
  packS 16 r.filename ++ (packS 22 r.fileinfo ++ ([0, 0] ++ (packU32R r.filesize ++
    (packS 16 r.author ++ (packS 17 r.copyright ++ ([0, 0, 0] ++ (packU32R r.timestamp ++
    (packS 7 r.encryption ++ ([0] ++ (packU32R r.key_length ++ (packU32R r.version ++
    packS 5 r.compression)))))))))))

/-- `struct.pack(self.header, ...)`: `struct.error` when a `u32` value
does not fit. -/
def headerBytes (r : RawHeader) : Option Bytes := do
  let _ ← packU32 r.filesize
  let _ ← packU32 r.timestamp
  let _ ← packU32 r.key_length
  let _ ← packU32 r.version
  pure (hbOf r)

/-- `struct.unpack(self.header, header_data)` followed by the per-field
decoding done in `info`. -/
def unpackHeader (bs : Bytes) : Option HeaderFields := do
  let fn ← decodeStrField (bs.take 16)
  let r1 := bs.drop 16
  let fi ← decodeStrField (r1.take 22)
  let r2 := (r1.drop 22).drop 2
  let fs := unpackU32 (r2.take 4)
  let r3 := r2.drop 4
  let au ← decodeStrField (r3.take 16)
  let r4 := r3.drop 16
  let cp ← decodeStrField (r4.take 17)
  let r5 := (r4.drop 17).drop 3
  let ts := unpackU32 (r5.take 4)
  let r6 := r5.drop 4
  let en ← decodeStrField (r6.take 7)
  let r7 := (r6.drop 7).drop 1
  let kl := unpackU32 (r7.take 4)
  let r8 := r7.drop 4
  let vr := unpackU32 (r8.take 4)
  let r9 := r8.drop 4
  let co ← decodeStrField (r9.take 5)
  pure ⟨fn, fi, fs, au, cp, ts, en, kl, vr, co⟩

/-- `ValkyriePackage.info(vpk_path)`: read the fixed-width prefix and
unpack it (`struct.unpack` raises unless the buffer has the exact
size, i.e. unless the file holds at least `headerSize` bytes). -/
def info (file : Bytes) : Option HeaderFields :=
  if headerSize ≤ file.length then unpackHeader (file.take headerSize) else none

/-- `ValkyriePackage._create_header(vpk_path, encrypted_data)`. -/
def _create_header (cfg : PkgConfig) (now : Nat) (vpk_path : String)
    (encrypted_data : Bytes) : Option Bytes :=
  headerBytes
    { filename := utf8chars (pathFilename vpk_path)
      fileinfo := strBytes "Encrypted data package"
      filesize := encrypted_data.length
      author := strBytes cfg.author
      copyright := strBytes "Valky ⓒ 2023"
      timestamp := now
      encryption := strBytes cfg.encryption
      key_length := cfg.argon_key.length
      version := cfg.version
      compression := strBytes cfg.compression }

/-- `ValkyriePackage._encrypt(byte_dict)`: pickle, encrypt with the
configured mode, pickle the envelope.  The fresh nonce drawn inside
`AES.new` is the explicit `nonce` argument. -/
def _encrypt (X : Exts) (cfg : PkgConfig) (nonce : Bytes) (byte_dict : BlobSet) :
    Option Bytes := do
  let mode ← MODES_D cfg.encryption
  let env ← encrypt_data X.prim cfg.argon_key nonce (X.pk.dumpB byte_dict) mode
  pure (X.pk.dumpE env)

/-- `ValkyriePackage._decrypt(encrypted_data)`: unpickle the envelope,
decrypt, unpickle the byte dict.  When `decrypt_data` returned a `str`
(UTF-8-decodable plaintext), `pickle.loads(str)` raises `TypeError`,
so the whole call fails. -/
def _decrypt (X : Exts) (cfg : PkgConfig) (encrypted_data : Bytes) :
    Option BlobSet := do
  let env ← X.pk.loadE encrypted_data
  let mode ← MODES_D cfg.encryption
  let r ← decrypt_data X.prim cfg.argon_key env mode
  match r with
  | .bytes pt => X.pk.loadB pt
  | .str _ => none

/-- `ValkyriePackage.save(byte_dict, vpk_path)`: encrypt, build header
(from `len(encrypted_data)`, before compression), compress, write
header + compressed.  The result is the byte content of the written
file. -/
def save (X : Exts) (cfg : PkgConfig) (nonce : Bytes) (now : Nat)
    (byte_dict : BlobSet) (vpk_path : String) : Option Bytes := do
  let encrypted_data ← _encrypt X cfg nonce byte_dict
  let header_data ← _create_header cfg now vpk_path encrypted_data
  let compressed ← deflate X.codecs encrypted_data cfg.compression
  pure (header_data ++ compressed)

/-- The typed failures `read`/`update` can raise. -/
inductive PkgErr where
  | encryption
  | compressor
  | decryption
  | vpk
  | structError
  deriving DecidableEq

/-- Component-boundary try/except: a failing step re-raised as the
component's typed error. -/
def orErr {α : Type} (o : Option α) (e : PkgErr) : Except PkgErr α :=
  match o with
  | some a => .ok a
  | none => .error e

/-- `ValkyriePackage._check(vpk_path)`: `EncryptionError` on encryption
mode mismatch; only `logger.warning` (the returned flag) on version
mismatch; `CompressorError` on compression mode mismatch.  The header
comparison values are the decoded strings. -/
def _check (cfg : PkgConfig) (file : Bytes) : Except PkgErr Bool :=
  match info file with
  | none => .error .structError
  | some head =>
    if head.encryption ≠ strBytes cfg.encryption then .error .encryption
    else
      let warned := head.version != cfg.version
      if head.compression ≠ strBytes cfg.compression then .error .compressor
      else .ok warned

/-- `ValkyriePackage._read_vpk(vpk_path)`: unpack the header, then
`file.read(head[2])` — at most `filesize` further bytes. -/
def _read_vpk (file : Bytes) : Option Bytes :=
  (info file).map fun head => (file.drop headerSize).take head.filesize

/-- `ValkyriePackage.read(vpk_path)`: `_check`, `_read_vpk`,
`_decompress`, `_decrypt`. -/
def read (X : Exts) (cfg : PkgConfig) (file : Bytes) : Except PkgErr BlobSet := do
  let _warn ← _check cfg file
  let compressed ← orErr (_read_vpk file) .vpk
  let encrypted ← orErr (inflate X.codecs compressed cfg.compression) .compressor
  orErr (_decrypt X cfg encrypted) .decryption

/-- Python `dict.update`: patch values overwrite existing keys in
place, new keys are appended in patch order, nothing is removed. -/
def dictUpdate (d p : BlobSet) : BlobSet :=
  d.map (fun kv => (kv.1, (p.lookup kv.1).getD kv.2)) ++
    p.filter (fun kv => (d.lookup kv.1).isNone)

/-- `ValkyriePackage.update(byte_dict, vpk_path)`: read, merge via
`dict.update`, save back to the same path. -/
def update (X : Exts) (cfg : PkgConfig) (nonce : Bytes) (now : Nat)
    (byte_dict : BlobSet) (file : Bytes) (vpk_path : String) :
    Except PkgErr Bytes := do
  let decrypted ← read X cfg file
  orErr (save X cfg nonce now (dictUpdate decrypted byte_dict) vpk_path) .vpk

/- ---------------------------------------------------------------
   Concrete instances of the external-library interfaces, used to
   instantiate the interface laws on closed inputs.
   --------------------------------------------------------------- -/

/-- Byte-wise modular checksum (a toy tag that detects single-bit flips). -/
def sum256 (l : Bytes) : Nat := l.foldl (fun a b => (a + b) % 256) 0

/-- A minimal cipher satisfying `PrimLaws`: identity transforms with a
checksum tag. -/
def toyPrim : AesPrim where
  gcmE := fun _ _ p => p
  gcmT := fun _ _ c => [sum256 c]
  gcmD := fun _ _ c => c
  ctrE := fun _ _ p => p
  ctrD := fun _ _ c => c
  cbcE := fun _ _ p => p
  cbcD := fun _ _ c => c

/-- The identity codec. -/
def idCodec : Codec := { comp := id, decomp := some }

/-- All five codecs as identity. -/
def idCodecs : ExtCodecs := ⟨idCodec, idCodec, idCodec, idCodec, idCodec⟩

/-- A round-tripping codec whose output is one byte longer than its
input (compressors may expand incompressible data). -/
def expandCodec : Codec where
  comp := fun b => 0 :: b
  decomp := fun b => match b with
    | 0 :: r => some r
    | _ => none

/-- Codecs with an expanding `zstd`. -/
def expandCodecs : ExtCodecs := { idCodecs with zstd := expandCodec }

/- A small self-delimiting serializer giving an executable `pickle`
instance: base-128 varints, length-prefixed lists. -/

/-- Varint encoder with explicit fuel (7-bit groups, low first). -/
def encVarAux : Nat → Nat → Bytes
  | 0, n => [n % 128]
  | fuel + 1, n => if n < 128 then [n] else (n % 128 + 128) :: encVarAux fuel (n / 128)

/-- Varint encoder. -/
def encVar (n : Nat) : Bytes := encVarAux n n

/-- Varint decoder, returning the value and the remaining bytes. -/
def decVar : Bytes → Option (Nat × Bytes)
  | [] => none
  | b :: rest =>
    if b < 128 then some (b, rest)
    else
      match decVar rest with
      | some (m, r) => some (b - 128 + 128 * m, r)
      | none => none

/-- Decode exactly `n` items with the item decoder `g`. -/
def decCount {α : Type} (g : Bytes → Option (α × Bytes)) : Nat → Bytes → Option (List α × Bytes)
  | 0, bs => some ([], bs)
  | n + 1, bs =>
    match g bs with
    | some (a, r) =>
      match decCount g n r with
      | some (as, r2) => some (a :: as, r2)
      | none => none
    | none => none

/-- Length-prefixed list encoder. -/
def encListWith {α : Type} (f : α → Bytes) (l : List α) : Bytes :=
  encVar l.length ++ l.flatMap f

/-- Length-prefixed list decoder. -/
def decListWith {α : Type} (g : Bytes → Option (α × Bytes)) (bs : Bytes) :
    Option (List α × Bytes) :=
  match decVar bs with
  | some (n, r) => decCount g n r
  | none => none

/-- Encode a byte string. -/
def encNats (l : Bytes) : Bytes := encListWith encVar l

/-- Decode a byte string. -/
def decNats (bs : Bytes) : Option (Bytes × Bytes) := decListWith decVar bs

/-- Encode one character as its code point. -/
def encChar (c : Char) : Bytes := encVar c.toNat

/-- Decode one character. -/
def decChar (bs : Bytes) : Option (Char × Bytes) :=
  match decVar bs with
  | some (n, r) => if n.isValidChar then some (Char.ofNat n, r) else none
  | none => none

/-- Encode a string as its character list. -/
def encString (s : String) : Bytes := encListWith encChar s.data

/-- Decode a string. -/
def decString (bs : Bytes) : Option (String × Bytes) :=
  match decListWith decChar bs with
  | some (cs, r) => some (String.mk cs, r)
  | none => none

/-- Encode one `BlobSet` entry. -/
def encEntry (kv : String × Bytes) : Bytes := encString kv.1 ++ encNats kv.2

/-- Decode one `BlobSet` entry. -/
def decEntry (bs : Bytes) : Option ((String × Bytes) × Bytes) :=
  match decString bs with
  | some (s, r) =>
    match decNats r with
    | some (v, r2) => some ((s, v), r2)
    | none => none
  | none => none

/-- Encode an optional byte string (the envelope's `tag`). -/
def encOptNats : Option Bytes → Bytes
  | none => [0]
  | some b => 1 :: encNats b

/-- Decode an optional byte string. -/
def decOptNats : Bytes → Option (Option Bytes × Bytes)
  | 0 :: r => some (none, r)
  | 1 :: r =>
    match decNats r with
    | some (b, r2) => some (some b, r2)
    | none => none
  | _ => none

/-- Encode an envelope. -/
def encEnv (e : Envelope) : Bytes := encNats e.ciphertext ++ (encOptNats e.tag ++ encNats e.iv)

/-- Decode an envelope. -/
def decEnv (bs : Bytes) : Option (Envelope × Bytes) :=
  match decNats bs with
  | some (ct, r1) =>
    match decOptNats r1 with
    | some (tg, r2) =>
      match decNats r2 with
      | some (iv, r3) => some (⟨ct, tg, iv⟩, r3)
      | none => none
    | none => none
  | none => none

/-- An executable `pickle` satisfying `PickleLaws`: output prefixed
with the protocol opcode `0x80` like real pickle. -/
def toyPickle : PickleImpl where
  dumpB d := 128 :: encListWith encEntry d
  loadB bs :=
    match bs with
    | 128 :: r =>
      match decListWith decEntry r with
      | some (d, _) => some d
      | none => none
    | _ => none
  dumpE e := 128 :: encEnv e
  loadE bs :=
    match bs with
    | 128 :: r =>
      match decEnv r with
      | some (e, _) => some e
      | none => none
    | _ => none

/-- The external collaborators instantiated with the concrete toys. -/
def toyExts : Exts := ⟨toyPrim, idCodecs, toyPickle⟩

/-- Collaborators whose `zstd` expands its input by one byte. -/
def expandExts : Exts := ⟨toyPrim, expandCodecs, toyPickle⟩

/-- The raw header record `_create_header` hands to `struct.pack` for a
freshly constructed pipeline (`defCfg`). -/
def rawHeaderOf (k : Bytes) (now : Nat) (vpk_path : String) (encrypted_data : Bytes) :
    RawHeader :=
  { filename := utf8chars (pathFilename vpk_path)
    fileinfo := strBytes "Encrypted data package"
    filesize := encrypted_data.length
    author := strBytes "Valky Fischer"
    copyright := strBytes "Valky ⓒ 2023"
    timestamp := now
    encryption := strBytes "AES-GCM"
    key_length := k.length
    version := 2
    compression := strBytes "zstd" }

/-- The decoded view of a packed header: each string field zero-padded
to width, decoded, and trailing-NUL-stripped. -/
def decodedOf (r : RawHeader) : HeaderFields :=
  ⟨rstripZeros (packS 16 r.filename), rstripZeros (packS 22 r.fileinfo), r.filesize,
   rstripZeros (packS 16 r.author), rstripZeros (packS 17 r.copyright), r.timestamp,
   rstripZeros (packS 7 r.encryption), r.key_length, r.version,
   rstripZeros (packS 5 r.compression)⟩

/-- A 32-byte key for concrete instantiations. -/
def kW : Bytes := List.replicate 32 1

/-- The example `BlobSet` `{"a.txt": b"hello", "dir/b.bin": b"\x00\x01"}`. -/
def exampleBlobs : BlobSet := [("a.txt", [104, 101, 108, 108, 111]), ("dir/b.bin", [0, 1])]

/-- The example patch `{"new.txt": b"x"}`. -/
def patchW : BlobSet := [("new.txt", [120])]

/-- A header written by a pipeline configured with AES-CTR and format
version 1 (used to exercise the mismatch checks). -/
def cxHeader : RawHeader :=
  { filename := strBytes "x"
    fileinfo := strBytes ""
    filesize := 3
    author := strBytes ""
    copyright := strBytes ""
    timestamp := 0
    encryption := strBytes "AES-CTR"
    key_length := 32
    version := 1
    compression := strBytes "zstd" }

/-! ## Theorems -/

theorem hexVal_hexDigit {n : Nat} (h : n < 16) : hexVal (hexDigit n) = some n := by
  rcases Nat.lt_or_ge n 10 with h10 | h10
  · have hd : hexDigit n = 48 + n := if_pos h10
    rw [hd]
    unfold hexVal
    rw [if_pos (by omega)]
    congr 1
    omega
  · have hd : hexDigit n = 87 + n := if_neg (by omega)
    rw [hd]
    unfold hexVal
    rw [if_neg (by omega), if_pos (by omega)]
    congr 1
    omega

theorem hexToBytes_bytesToHex {bs : Bytes} (h : WF bs) :
    hexToBytes (bytesToHex bs) = some bs := by
  induction bs with
  | nil => rfl
  | cons b tl ih =>
    have hb : b < 256 := h b (List.mem_cons_self _ _)
    have htl : WF tl := fun x hx => h x (List.mem_cons_of_mem _ hx)
    have h1 : b / 16 < 16 := by omega
    have h2 : b % 16 < 16 := by omega
    show hexToBytes (byteToHex b ++ bytesToHex tl) = some (b :: tl)
    simp only [byteToHex, List.cons_append, List.nil_append, hexToBytes,
      hexVal_hexDigit h1, hexVal_hexDigit h2, ih htl, Option.bind_eq_bind,
      Option.some_bind]
    have hb16 : 16 * (b / 16) + b % 16 = b := by omega
    rw [hb16]
    simp [ih htl]

theorem bytesToHex_injOn {a b : Bytes} (ha : WF a) (hb : WF b)
    (h : bytesToHex a = bytesToHex b) : a = b := by
  have := hexToBytes_bytesToHex ha
  rw [h, hexToBytes_bytesToHex hb] at this
  exact (Option.some.injEq _ _ ▸ this).symm

theorem packS_length (w : Nat) (bs : Bytes) : (packS w bs).length = w := by
  simp only [packS, List.length_append, List.length_take, List.length_replicate]
  omega

theorem packU32_length {n : Nat} {bs : Bytes} (h : packU32 n = some bs) :
    bs.length = 4 := by
  unfold packU32 at h
  split at h
  · cases h
    rfl
  · cases h

theorem unpackU32_packU32 {n : Nat} {bs : Bytes} (h : packU32 n = some bs) :
    unpackU32 bs = n := by
  unfold packU32 at h
  split at h
  · cases h
    show _ + _ + _ + _ = n
    omega
  · cases h

theorem rstripZeros_append_replicate (s : Bytes) (k : Nat)
    (h : s.getLast? ≠ some 0) : rstripZeros (s ++ List.replicate k 0) = s := by
  unfold rstripZeros
  rw [List.reverse_append, List.reverse_replicate]
  have hz : List.dropWhile (· = 0) (List.replicate k 0 ++ s.reverse) =
      List.dropWhile (· = 0) s.reverse := by
    induction k with
    | zero => simp
    | succ m ih =>
      rw [List.replicate_succ, List.cons_append, List.dropWhile_cons_of_pos (by simp)]
      exact ih
  rw [hz]
  cases hrev : s.reverse with
  | nil =>
    have : s = [] := by simpa using congrArg List.reverse hrev
    simp [this]
  | cons a tl =>
    have ha : a ≠ 0 := by
      intro ha0
      apply h
      rw [← List.head?_reverse, hrev, ha0]
      rfl
    rw [List.dropWhile_cons_of_neg (by simpa using ha)]
    rw [← hrev, List.reverse_reverse]

theorem xor_pow_ne (b j : Nat) : b ^^^ 2 ^ j ≠ b := by
  intro h
  have h2 : b ^^^ (b ^^^ 2 ^ j) = b ^^^ b := congrArg (b ^^^ ·) h
  rw [← Nat.xor_assoc, Nat.xor_self, Nat.zero_xor] at h2
  have h3 : 0 < 2 ^ j := Nat.two_pow_pos j
  omega

theorem WF_append {a b : Bytes} (ha : WF a) (hb : WF b) : WF (a ++ b) := by
  intro x hx
  rcases List.mem_append.mp hx with h | h
  · exact ha x h
  · exact hb x h

theorem WF_set {bs : Bytes} {i a : Nat} (h : WF bs) (ha : a < 256) : WF (bs.set i a) := by
  intro x hx
  rcases List.mem_or_eq_of_mem_set hx with h1 | h1
  · exact h x h1
  · omega

theorem getD_lt256 {bs : Bytes} (h : WF bs) (i : Nat) : bs.getD i 0 < 256 := by
  rcases Nat.lt_or_ge i bs.length with hi | hi
  · rw [List.getD_eq_getElem bs 0 hi]
    exact h _ (List.getElem_mem hi)
  · rw [List.getD_eq_default bs 0 hi]
    omega

theorem flipBytes_wf {bs : Bytes} {i j : Nat} (h : WF bs) (hj : j < 8) :
    WF (flipBytes bs i j) := by
  apply WF_set h
  have h1 : bs.getD i 0 < 2 ^ 8 := getD_lt256 h i
  have h2 : 2 ^ j < 2 ^ 8 := Nat.pow_lt_pow_right (by omega) hj
  exact Nat.xor_lt_two_pow h1 h2

theorem flipBytes_ne {bs : Bytes} {i : Nat} (j : Nat) (hi : i < bs.length) :
    flipBytes bs i j ≠ bs := by
  intro h
  have h1 : (bs.set i ((bs.getD i 0) ^^^ 2 ^ j))[i]? = bs[i]? := by
    simp only [flipBytes] at h
    rw [h]
  rw [List.getElem?_set_self hi, List.getElem?_eq_getElem hi] at h1
  have h2 : (bs.getD i 0) ^^^ 2 ^ j = bs.get ⟨i, hi⟩ := Option.some.inj h1
  have hgd : bs.getD i 0 = bs.get ⟨i, hi⟩ := List.getD_eq_getElem bs 0 hi
  rw [hgd] at h2
  exact xor_pow_ne (bs.get ⟨i, hi⟩) j h2

/-! Round-trip of the executable serializer behind `toyPickle`. -/

theorem decVar_encVarAux {f n : Nat} (h : n ≤ f) (r : Bytes) :
    decVar (encVarAux f n ++ r) = some (n, r) := by
  induction f generalizing n r with
  | zero =>
    have hn : n = 0 := Nat.le_zero.mp h
    subst hn
    rfl
  | succ m ih =>
    by_cases h128 : n < 128
    · unfold encVarAux
      rw [if_pos h128]
      show decVar (n :: r) = _
      unfold decVar
      rw [if_pos h128]
    · unfold encVarAux
      rw [if_neg h128]
      show decVar ((n % 128 + 128) :: (encVarAux m (n / 128) ++ r)) = _
      unfold decVar
      rw [if_neg (by omega), ih (by omega) r]
      show some (n % 128 + 128 - 128 + 128 * (n / 128), r) = some (n, r)
      have he : n % 128 + 128 - 128 + 128 * (n / 128) = n := by omega
      rw [he]

theorem decVar_encVar (n : Nat) (r : Bytes) : decVar (encVar n ++ r) = some (n, r) :=
  decVar_encVarAux (Nat.le_refl n) r

theorem decCount_flatMap {α : Type} {f : α → Bytes} {g : Bytes → Option (α × Bytes)}
    (hg : ∀ a r, g (f a ++ r) = some (a, r)) :
    ∀ (l : List α) (r : Bytes), decCount g l.length (l.flatMap f ++ r) = some (l, r) := by
  intro l
  induction l with
  | nil => intro r; rfl
  | cons a tl ih =>
    intro r
    show decCount g (tl.length + 1) ((f a ++ tl.flatMap f) ++ r) = _
    rw [List.append_assoc]
    unfold decCount
    rw [hg a _]
    show (match decCount g tl.length (tl.flatMap f ++ r) with
      | some (as, r2) => some (a :: as, r2)
      | none => none) = _
    rw [ih r]

theorem decListWith_encListWith {α : Type} {f : α → Bytes} {g : Bytes → Option (α × Bytes)}
    (hg : ∀ a r, g (f a ++ r) = some (a, r)) (l : List α) (r : Bytes) :
    decListWith g (encListWith f l ++ r) = some (l, r) := by
  unfold encListWith decListWith
  rw [List.append_assoc, decVar_encVar]
  exact decCount_flatMap hg l r

theorem decNats_encNats (l : Bytes) (r : Bytes) : decNats (encNats l ++ r) = some (l, r) :=
  decListWith_encListWith decVar_encVar l r

theorem decChar_encChar (c : Char) (r : Bytes) : decChar (encChar c ++ r) = some (c, r) := by
  unfold decChar encChar
  rw [decVar_encVar]
  have hv : c.toNat.isValidChar := c.valid
  show (if c.toNat.isValidChar then some (Char.ofNat c.toNat, r) else none) = some (c, r)
  rw [if_pos hv, Char.ofNat_toNat]

theorem decString_encString (s : String) (r : Bytes) :
    decString (encString s ++ r) = some (s, r) := by
  unfold decString encString
  rw [decListWith_encListWith decChar_encChar]

theorem decEntry_encEntry (kv : String × Bytes) (r : Bytes) :
    decEntry (encEntry kv ++ r) = some (kv, r) := by
  unfold decEntry encEntry
  rw [List.append_assoc, decString_encString]
  show (match decNats (encNats kv.2 ++ r) with
    | some (v, r2) => some ((kv.1, v), r2)
    | none => none) = some (kv, r)
  rw [decNats_encNats]

theorem decOptNats_encOptNats (o : Option Bytes) (r : Bytes) :
    decOptNats (encOptNats o ++ r) = some (o, r) := by
  cases o with
  | none => rfl
  | some b =>
    show decOptNats (1 :: (encNats b ++ r)) = _
    show (match decNats (encNats b ++ r) with
      | some (b, r2) => some (some b, r2)
      | none => none) = _
    rw [decNats_encNats]

theorem decEnv_encEnv (e : Envelope) (r : Bytes) : decEnv (encEnv e ++ r) = some (e, r) := by
  unfold decEnv encEnv
  rw [List.append_assoc, decNats_encNats, List.append_assoc]
  show (match decOptNats (encOptNats e.tag ++ (encNats e.iv ++ r)) with
    | some (tg, r2) =>
      match decNats r2 with
      | some (iv, r3) => some (⟨e.ciphertext, tg, iv⟩, r3)
      | none => none
    | none => none) = some (e, r)
  rw [decOptNats_encOptNats]
  show (match decNats (encNats e.iv ++ r) with
    | some (iv, r3) => some (⟨e.ciphertext, e.tag, iv⟩, r3)
    | none => none) = some (e, r)
  rw [decNats_encNats]

theorem encVarAux_wf (f n : Nat) : WF (encVarAux f n) := by
  induction f generalizing n with
  | zero =>
    intro b hb
    simp only [encVarAux, List.mem_singleton] at hb
    omega
  | succ m ih =>
    intro b hb
    unfold encVarAux at hb
    split at hb
    · simp only [List.mem_singleton] at hb
      omega
    · rcases List.mem_cons.mp hb with h | h
      · omega
      · exact ih _ _ h

theorem encVar_wf (n : Nat) : WF (encVar n) := encVarAux_wf n n

theorem encListWith_wf {α : Type} {f : α → Bytes} (hf : ∀ a, WF (f a)) (l : List α) :
    WF (encListWith f l) := by
  apply WF_append (encVar_wf _)
  intro b hb
  rcases List.mem_flatMap.mp hb with ⟨a, _, hmem⟩
  exact hf a b hmem

theorem encNats_wf (l : Bytes) : WF (encNats l) := encListWith_wf encVar_wf l

theorem encChar_wf (c : Char) : WF (encChar c) := encVar_wf c.toNat

theorem encString_wf (s : String) : WF (encString s) := encListWith_wf encChar_wf s.data

theorem encEntry_wf (kv : String × Bytes) : WF (encEntry kv) :=
  WF_append (encString_wf kv.1) (encNats_wf kv.2)

theorem validUtf8_cons128 (l : List Nat) : validUtf8 (128 :: l) = false := by
  match l with
  | [] => rfl
  | [_] => rfl
  | [_, _] => rfl
  | _ :: _ :: _ :: _ => rfl

theorem toyPickle_laws : PickleLaws toyPickle := by
  constructor
  · intro d
    show (match decListWith decEntry (encListWith encEntry d) with
      | some (d, _) => some d
      | none => none) = some d
    have h := decListWith_encListWith decEntry_encEntry d []
    rw [List.append_nil] at h
    rw [h]
  · intro e
    show (match decEnv (encEnv e) with
      | some (e, _) => some e
      | none => none) = some e
    have h := decEnv_encEnv e []
    rw [List.append_nil] at h
    rw [h]
  · intro d
    intro b hb
    rcases List.mem_cons.mp hb with h | h
    · omega
    · exact encListWith_wf encEntry_wf d b h
  · intro d
    exact validUtf8_cons128 _

/-! Laws of the concrete cipher and codec instances. -/

theorem sum256_lt (l : Bytes) : sum256 l < 256 := by
  have key : ∀ (l : Bytes) (a : Nat), a < 256 → l.foldl (fun a b => (a + b) % 256) a < 256 := by
    intro l
    induction l with
    | nil => intro a ha; exact ha
    | cons x tl ih =>
      intro a _
      exact ih ((a + x) % 256) (Nat.mod_lt _ (by omega))
  exact key l 0 (by omega)

theorem toyPrim_laws : PrimLaws toyPrim := by
  refine ⟨fun _ _ _ => rfl, fun _ _ _ => rfl, fun _ _ _ => rfl,
    fun _ _ _ h => h, ?_, fun _ _ _ h => h, fun _ _ _ h => h, fun _ _ _ => rfl⟩
  intro k n c b hb
  simp only [toyPrim, List.mem_singleton] at hb
  subst hb
  exact sum256_lt c

theorem idCodecs_laws : CodecLaws idCodecs :=
  ⟨fun _ => rfl, fun _ => rfl, fun _ => rfl, fun _ => rfl, fun _ => rfl⟩

theorem expandCodecs_laws : CodecLaws expandCodecs :=
  ⟨fun _ => rfl, fun _ => rfl, fun _ => rfl, fun _ => rfl, fun _ => rfl⟩

/-! Encryption round-trips. -/

theorem pyReturn_toBytes (p : Bytes) : (pyReturn p).toBytes = p := by
  unfold pyReturn
  split <;> rfl

theorem decrypt_encrypt_gcm {P : AesPrim} (hP : PrimLaws P) (k n p : Bytes)
    (hn : WF n) (hp : WF p) :
    (encrypt_data P k n p AES_GCM).bind (fun e => decrypt_data P k e AES_GCM) =
      some (pyReturn p) := by
  show decrypt_data P k
    ⟨bytesToHex (P.gcmE k n p), some (bytesToHex (P.gcmT k n (P.gcmE k n p))),
      bytesToHex n⟩ AES_GCM = some (pyReturn p)
  unfold decrypt_data
  rw [if_pos rfl]
  simp only [Option.bind_eq_bind]
  rw [hexToBytes_bytesToHex hn]
  simp only [Option.some_bind]
  rw [hexToBytes_bytesToHex (hP.gcmE_wf k n p hp)]
  simp only [Option.some_bind]
  rw [hexToBytes_bytesToHex (hP.gcmT_wf k n (P.gcmE k n p))]
  simp only [Option.some_bind]
  simp only [if_true]
  rw [hP.gcm_dec]
  rfl

theorem decrypt_encrypt_ctr {P : AesPrim} (hP : PrimLaws P) (k n p : Bytes)
    (hn : WF n) (hp : WF p) :
    (encrypt_data P k n p AES_CTR).bind (fun e => decrypt_data P k e AES_CTR) =
      some (pyReturn p) := by
  show decrypt_data P k
    ⟨bytesToHex (P.ctrE k n p), none, bytesToHex n⟩ AES_CTR = some (pyReturn p)
  unfold decrypt_data
  rw [if_neg (by unfold AES_CTR AES_GCM; omega), if_pos rfl]
  simp only [Option.bind_eq_bind]
  rw [hexToBytes_bytesToHex hn]
  simp only [Option.some_bind]
  rw [hexToBytes_bytesToHex (hP.ctrE_wf k n p hp)]
  simp only [Option.some_bind]
  rw [hP.ctr_dec]
  rfl

theorem decrypt_encrypt_cbc {P : AesPrim} (hP : PrimLaws P) (k n p : Bytes)
    (hn : WF n) (hp : WF p) (h16 : p.length % 16 = 0) :
    (encrypt_data P k n p AES_CBC).bind (fun e => decrypt_data P k e AES_CBC) =
      some (pyReturn p) := by
  have he : encrypt_data P k n p AES_CBC =
      some ⟨bytesToHex (P.cbcE k n p), none, bytesToHex n⟩ := by
    unfold encrypt_data
    rw [if_neg (by unfold AES_CBC AES_GCM; omega),
      if_neg (by unfold AES_CBC AES_CTR; omega), if_pos rfl, if_pos h16]
  rw [he]
  show decrypt_data P k ⟨bytesToHex (P.cbcE k n p), none, bytesToHex n⟩ AES_CBC =
    some (pyReturn p)
  unfold decrypt_data
  rw [if_neg (by unfold AES_CBC AES_GCM; omega),
    if_neg (by unfold AES_CBC AES_CTR; omega), if_pos rfl]
  simp only [Option.bind_eq_bind]
  rw [hexToBytes_bytesToHex hn]
  simp only [Option.some_bind]
  rw [hexToBytes_bytesToHex (hP.cbcE_wf k n p hp)]
  simp only [Option.some_bind]
  rw [if_pos (by rw [hP.cbcE_len]; exact h16), hP.cbc_dec]
  rfl

theorem encrypt_cbc_unpadded {P : AesPrim} (k n p : Bytes) (h16 : p.length % 16 ≠ 0) :
    encrypt_data P k n p AES_CBC = none := by
  unfold encrypt_data
  rw [if_neg (by unfold AES_CBC AES_GCM; omega),
    if_neg (by unfold AES_CBC AES_CTR; omega), if_pos rfl, if_neg h16]

/-- C3 (amended): for every AES primitive satisfying its interface laws,
every 32-byte key, fresh nonce and plaintext byte string `p`,
`decrypt_data(k, encrypt_data(k, p, mode), mode)` recovers exactly the
plaintext bytes in AES-GCM and AES-CTR mode (wrapped as `str` when `p`
is UTF-8-decodable, as raw bytes otherwise); in AES-CBC mode it does so
exactly when `p`'s length is a multiple of the 16-byte block, and for
any other length `encrypt_data` raises inside `cipher.encrypt` (no
envelope is produced) because the code never pads. -/
theorem c3_roundtrip_amended (P : AesPrim) (hP : PrimLaws P) (k n p : Bytes)
    (_hk : k.length = 32) (hn : WF n) (hp : WF p) :
    ((encrypt_data P k n p AES_GCM).bind (fun e => decrypt_data P k e AES_GCM) =
        some (pyReturn p) ∧ (pyReturn p).toBytes = p)
    ∧ ((encrypt_data P k n p AES_CTR).bind (fun e => decrypt_data P k e AES_CTR) =
        some (pyReturn p))
    ∧ (p.length % 16 = 0 →
        (encrypt_data P k n p AES_CBC).bind (fun e => decrypt_data P k e AES_CBC) =
          some (pyReturn p))
    ∧ (p.length % 16 ≠ 0 → encrypt_data P k n p AES_CBC = none) :=
  ⟨⟨decrypt_encrypt_gcm hP k n p hn hp, pyReturn_toBytes p⟩,
    decrypt_encrypt_ctr hP k n p hn hp,
    fun h16 => decrypt_encrypt_cbc hP k n p hn hp h16,
    fun h16 => encrypt_cbc_unpadded k n p h16⟩

/-- C3 witness: the amended round-trip instantiated with the lawful
concrete cipher, a 32-byte key, nonce `[7]` and plaintext `[255]`
(not valid UTF-8, length not a block multiple). -/
theorem c3_roundtrip_amended_witness :
    ((encrypt_data toyPrim (List.replicate 32 0) [7] [255] AES_GCM).bind
        (fun e => decrypt_data toyPrim (List.replicate 32 0) e AES_GCM) =
        some (pyReturn [255]) ∧ (pyReturn [255]).toBytes = [255])
    ∧ ((encrypt_data toyPrim (List.replicate 32 0) [7] [255] AES_CTR).bind
        (fun e => decrypt_data toyPrim (List.replicate 32 0) e AES_CTR) =
        some (pyReturn [255]))
    ∧ (([255] : Bytes).length % 16 = 0 →
        (encrypt_data toyPrim (List.replicate 32 0) [7] [255] AES_CBC).bind
          (fun e => decrypt_data toyPrim (List.replicate 32 0) e AES_CBC) =
          some (pyReturn [255]))
    ∧ (([255] : Bytes).length % 16 ≠ 0 →
        encrypt_data toyPrim (List.replicate 32 0) [7] [255] AES_CBC = none) :=
  c3_roundtrip_amended toyPrim toyPrim_laws (List.replicate 32 0) [7] [255]
    (by decide) (by decide) (by decide)

/-- C3 counterexample: with a lawful cipher instance, a 32-byte key and
the 13-byte plaintext `b'Hello, World!'`, the AES-CBC round trip yields
no value at all — `cipher.encrypt` raises `ValueError` because 13 is
not a multiple of the block size and `encrypt_data` does not pad — so
`decrypt_data(k, encrypt_data(k, p, 2), 2) = p` fails at this input. -/
theorem c3_counterexample :
    (encrypt_data toyPrim (List.replicate 32 0) [7]
        [72, 101, 108, 108, 111, 44, 32, 87, 111, 114, 108, 100, 33] AES_CBC).bind
      (fun e => decrypt_data toyPrim (List.replicate 32 0) e AES_CBC) = none := by
  decide

/-- C7: in AES-GCM mode, for an envelope produced by `encrypt_data`,
flipping any single bit of any ciphertext byte or of any tag byte makes
`decrypt_data` raise (return nothing): the recomputed tag no longer
matches, and `decrypt_and_verify` fails before any plaintext is
released.  The hypothesis `hT` is the GCM tag's sensitivity to
single-bit ciphertext changes (a property of the external primitive). -/
theorem c7_gcm_tamper_detect (P : AesPrim) (k n pt : Bytes) (hn : WF n)
    (hct : WF (P.gcmE k n pt)) (htag : WF (P.gcmT k n (P.gcmE k n pt)))
    (hT : ∀ i, i < (P.gcmE k n pt).length → ∀ j, j < 8 →
      P.gcmT k n (flipBytes (P.gcmE k n pt) i j) ≠ P.gcmT k n (P.gcmE k n pt)) :
    encrypt_data P k n pt AES_GCM =
      some ⟨bytesToHex (P.gcmE k n pt),
            some (bytesToHex (P.gcmT k n (P.gcmE k n pt))), bytesToHex n⟩
    ∧ (∀ i, i < (P.gcmE k n pt).length → ∀ j, j < 8 →
        decrypt_data P k
          ⟨bytesToHex (flipBytes (P.gcmE k n pt) i j),
           some (bytesToHex (P.gcmT k n (P.gcmE k n pt))), bytesToHex n⟩ AES_GCM = none)
    ∧ (∀ i, i < (P.gcmT k n (P.gcmE k n pt)).length → ∀ j, j < 8 →
        decrypt_data P k
          ⟨bytesToHex (P.gcmE k n pt),
           some (bytesToHex (flipBytes (P.gcmT k n (P.gcmE k n pt)) i j)),
           bytesToHex n⟩ AES_GCM = none) := by
  refine ⟨rfl, ?_, ?_⟩
  · intro i hi j hj
    unfold decrypt_data
    rw [if_pos rfl]
    simp only [Option.bind_eq_bind]
    rw [hexToBytes_bytesToHex hn]
    simp only [Option.some_bind]
    rw [hexToBytes_bytesToHex (flipBytes_wf hct hj)]
    simp only [Option.some_bind]
    rw [hexToBytes_bytesToHex htag]
    simp only [Option.some_bind]
    rw [if_neg (fun h => hT i hi j hj h.symm)]
  · intro i hi j hj
    unfold decrypt_data
    rw [if_pos rfl]
    simp only [Option.bind_eq_bind]
    rw [hexToBytes_bytesToHex hn]
    simp only [Option.some_bind]
    rw [hexToBytes_bytesToHex hct]
    simp only [Option.some_bind]
    rw [hexToBytes_bytesToHex (flipBytes_wf htag hj)]
    simp only [Option.some_bind]
    rw [if_neg (flipBytes_ne j hi)]

/-- C7 witness: tamper detection instantiated with the concrete cipher
(whose checksum tag detects every single-bit flip of the two-byte
ciphertext), evaluated on key `[1]`, nonce `[5]`, plaintext `[10, 20]`. -/
theorem c7_gcm_tamper_detect_witness :
    encrypt_data toyPrim [1] [5] [10, 20] AES_GCM =
      some ⟨bytesToHex (toyPrim.gcmE [1] [5] [10, 20]),
            some (bytesToHex (toyPrim.gcmT [1] [5] (toyPrim.gcmE [1] [5] [10, 20]))),
            bytesToHex [5]⟩
    ∧ (∀ i, i < (toyPrim.gcmE [1] [5] [10, 20]).length → ∀ j, j < 8 →
        decrypt_data toyPrim [1]
          ⟨bytesToHex (flipBytes (toyPrim.gcmE [1] [5] [10, 20]) i j),
           some (bytesToHex (toyPrim.gcmT [1] [5] (toyPrim.gcmE [1] [5] [10, 20]))),
           bytesToHex [5]⟩ AES_GCM = none)
    ∧ (∀ i, i < (toyPrim.gcmT [1] [5] (toyPrim.gcmE [1] [5] [10, 20])).length → ∀ j, j < 8 →
        decrypt_data toyPrim [1]
          ⟨bytesToHex (toyPrim.gcmE [1] [5] [10, 20]),
           some (bytesToHex (flipBytes (toyPrim.gcmT [1] [5] (toyPrim.gcmE [1] [5] [10, 20])) i j)),
           bytesToHex [5]⟩ AES_GCM = none) :=
  c7_gcm_tamper_detect toyPrim [1] [5] [10, 20] (by decide) (by decide) (by decide)
    (by decide)

/-- C8: the nonce/IV is drawn fresh inside `AES.new` on every
`encrypt_data` call (modelled as the explicit `nonce` argument); two
calls with the same key and plaintext but distinct fresh nonces yield
different ciphertext envelopes in all three modes, because the envelope
records the hex-encoded nonce. -/
theorem c8_fresh_nonce_distinct (P : AesPrim) (k p n1 n2 : Bytes) (mode : Nat)
    (h1 : WF n1) (h2 : WF n2) (hne : n1 ≠ n2)
    (hm : mode = AES_GCM ∨ mode = AES_CTR ∨ mode = AES_CBC)
    (hcbc : mode = AES_CBC → p.length % 16 = 0) :
    encrypt_data P k n1 p mode ≠ encrypt_data P k n2 p mode := by
  have key : ∀ e1 e2 : Envelope, e1.iv = bytesToHex n1 → e2.iv = bytesToHex n2 →
      some e1 = some e2 → False := by
    intro e1 e2 hiv1 hiv2 h
    apply hne
    apply bytesToHex_injOn h1 h2
    rw [← hiv1, ← hiv2, Option.some.inj h]
  rcases hm with hm | hm | hm
  · subst hm
    exact fun h => key _ _ rfl rfl h
  · subst hm
    exact fun h => key _ _ rfl rfl h
  · subst hm
    have e1 : encrypt_data P k n1 p AES_CBC =
        some ⟨bytesToHex (P.cbcE k n1 p), none, bytesToHex n1⟩ := by
      unfold encrypt_data
      rw [if_neg (by unfold AES_CBC AES_GCM; omega),
        if_neg (by unfold AES_CBC AES_CTR; omega), if_pos rfl, if_pos (hcbc rfl)]
    have e2 : encrypt_data P k n2 p AES_CBC =
        some ⟨bytesToHex (P.cbcE k n2 p), none, bytesToHex n2⟩ := by
      unfold encrypt_data
      rw [if_neg (by unfold AES_CBC AES_GCM; omega),
        if_neg (by unfold AES_CBC AES_CTR; omega), if_pos rfl, if_pos (hcbc rfl)]
    rw [e1, e2]
    exact fun h => key _ _ rfl rfl h

/-- C8 witness: two encryptions of the plaintext `[9]` under the same
key with distinct fresh nonces `[1]` and `[2]` produce different
envelopes (CTR mode instance). -/
theorem c8_fresh_nonce_distinct_witness :
    encrypt_data toyPrim [3] [1] [9] AES_CTR ≠ encrypt_data toyPrim [3] [2] [9] AES_CTR :=
  c8_fresh_nonce_distinct toyPrim [3] [9] [1] [2] AES_CTR (by decide) (by decide)
    (by decide) (Or.inr (Or.inl rfl)) (by decide)

/-- C10: whenever `decrypt_data` returns a value, that value is the
decoded `str` of the plaintext when the plaintext bytes are valid
UTF-8, and the raw plaintext bytes otherwise — i.e. every result equals
`pyReturn` of its own underlying bytes, so the result type depends on
the plaintext's content. -/
theorem c10_decrypt_result_type (P : AesPrim) (k : Bytes) (e : Envelope) (mode : Nat)
    (r : PyData) (h : decrypt_data P k e mode = some r) : r = pyReturn r.toBytes := by
  have final : ∀ pt : Bytes, r = pyReturn pt → r = pyReturn r.toBytes := by
    intro pt hr
    rw [hr, pyReturn_toBytes]
  unfold decrypt_data at h
  split_ifs at h with hm0 hm1 hm2
  · simp only [Option.bind_eq_bind] at h
    rcases Option.bind_eq_some.mp h with ⟨iv, _, h⟩
    rcases Option.bind_eq_some.mp h with ⟨ct, _, h⟩
    rcases Option.bind_eq_some.mp h with ⟨tagHex, _, h⟩
    rcases Option.bind_eq_some.mp h with ⟨tag, _, h⟩
    split_ifs at h
    exact final _ (Option.some.inj h).symm
  · simp only [Option.bind_eq_bind] at h
    rcases Option.bind_eq_some.mp h with ⟨iv, _, h⟩
    rcases Option.bind_eq_some.mp h with ⟨ct, _, h⟩
    exact final _ (Option.some.inj h).symm
  · simp only [Option.bind_eq_bind] at h
    rcases Option.bind_eq_some.mp h with ⟨iv, _, h⟩
    rcases Option.bind_eq_some.mp h with ⟨ct, _, h⟩
    split_ifs at h
    exact final _ (Option.some.inj h).symm

/-- C10 witness: a CTR decryption returning raw bytes (the plaintext
`[200]` is not valid UTF-8), equal to `pyReturn` of its bytes. -/
theorem c10_decrypt_result_type_witness :
    decrypt_data toyPrim [0] ⟨bytesToHex [200], none, bytesToHex [1]⟩ AES_CTR =
      some (PyData.bytes [200])
    ∧ PyData.bytes [200] = pyReturn (PyData.bytes [200]).toBytes :=
  ⟨by decide,
    c10_decrypt_result_type toyPrim [0] ⟨bytesToHex [200], none, bytesToHex [1]⟩
      AES_CTR (PyData.bytes [200]) (by decide)⟩

/-- C4: for every byte string, including the empty one, and each of the
six supported modes, `inflate(deflate(b, mode), mode) = b`: the repo's
dispatch pairs each mode with the matching codec (assumed to satisfy
its library round-trip contract), and `'none'` is the repo's own
identity passthrough. -/
theorem c4_compressor_roundtrip (C : ExtCodecs) (hC : CodecLaws C) (b : Bytes)
    (mode : String)
    (hm : mode = "gzip" ∨ mode = "bzip2" ∨ mode = "lzma" ∨ mode = "lz4" ∨
      mode = "zstd" ∨ mode = "none") :
    (deflate C b mode).bind (fun c => inflate C c mode) = some b := by
  rcases hm with h | h | h | h | h | h <;> subst h <;>
    simp [deflate, inflate, hC.gzip_rt, hC.bzip2_rt, hC.lzma_rt, hC.lz4_rt, hC.zstd_rt]

/-- C4 witness: the round trip applied at `[1, 2, 3]` with `'zstd'` and
at the empty byte string with `'gzip'`, under codecs satisfying the
round-trip contract. -/
theorem c4_compressor_roundtrip_witness :
    ((deflate idCodecs [1, 2, 3] "zstd").bind (fun c => inflate idCodecs c "zstd") =
      some [1, 2, 3])
    ∧ ((deflate idCodecs [] "gzip").bind (fun c => inflate idCodecs c "gzip") =
      some ([] : Bytes)) :=
  ⟨c4_compressor_roundtrip idCodecs idCodecs_laws [1, 2, 3] "zstd"
      (Or.inr (Or.inr (Or.inr (Or.inr (Or.inl rfl))))),
    c4_compressor_roundtrip idCodecs idCodecs_laws [] "gzip" (Or.inl rfl)⟩

/-! Header packing and unpacking. -/

theorem take_app (n : Nat) (a b : Bytes) (h : a.length = n) : (a ++ b).take n = a :=
  List.take_left' h

theorem drop_app (n : Nat) (a b : Bytes) (h : a.length = n) : (a ++ b).drop n = b :=
  List.drop_left' h

theorem packU32_some {n : Nat} (h : n < 2 ^ 32) : packU32 n = some (packU32R n) :=
  if_pos h

theorem packU32R_length (n : Nat) : (packU32R n).length = 4 := rfl

theorem unpackU32_packU32R {n : Nat} (h : n < 2 ^ 32) : unpackU32 (packU32R n) = n := by
  show _ + _ + _ + _ = n
  omega

theorem decodeStrField_pos {f : Bytes} (h : validUtf8 f = true) :
    decodeStrField f = some (rstripZeros f) := if_pos h

theorem headerBytes_some {r : RawHeader} (h1 : r.filesize < 2 ^ 32)
    (h2 : r.timestamp < 2 ^ 32) (h3 : r.key_length < 2 ^ 32) (h4 : r.version < 2 ^ 32) :
    headerBytes r = some (hbOf r) := by
  unfold headerBytes
  rw [packU32_some h1, packU32_some h2, packU32_some h3, packU32_some h4]
  simp only [Option.bind_eq_bind, Option.some_bind]
  rfl

theorem hbOf_length (r : RawHeader) : (hbOf r).length = 105 := by
  unfold hbOf
  simp only [List.length_append, packS_length, packU32R_length, List.length_cons,
    List.length_nil]

theorem unpackHeader_hbOf {r : RawHeader}
    (hfs : r.filesize < 2 ^ 32) (hts : r.timestamp < 2 ^ 32)
    (hkl : r.key_length < 2 ^ 32) (hvr : r.version < 2 ^ 32)
    (u1 : validUtf8 (packS 16 r.filename) = true)
    (u2 : validUtf8 (packS 22 r.fileinfo) = true)
    (u3 : validUtf8 (packS 16 r.author) = true)
    (u4 : validUtf8 (packS 17 r.copyright) = true)
    (u5 : validUtf8 (packS 7 r.encryption) = true)
    (u6 : validUtf8 (packS 5 r.compression) = true) :
    unpackHeader (hbOf r) = some
      ⟨rstripZeros (packS 16 r.filename), rstripZeros (packS 22 r.fileinfo), r.filesize,
       rstripZeros (packS 16 r.author), rstripZeros (packS 17 r.copyright), r.timestamp,
       rstripZeros (packS 7 r.encryption), r.key_length, r.version,
       rstripZeros (packS 5 r.compression)⟩ := by
  unfold unpackHeader hbOf
  simp only [Option.bind_eq_bind]
  rw [take_app 16 _ _ (packS_length 16 r.filename),
    drop_app 16 _ _ (packS_length 16 r.filename),
    take_app 22 _ _ (packS_length 22 r.fileinfo),
    drop_app 22 _ _ (packS_length 22 r.fileinfo),
    drop_app 2 [0, 0] _ rfl,
    take_app 4 _ _ (packU32R_length r.filesize),
    drop_app 4 _ _ (packU32R_length r.filesize),
    take_app 16 _ _ (packS_length 16 r.author),
    drop_app 16 _ _ (packS_length 16 r.author),
    take_app 17 _ _ (packS_length 17 r.copyright),
    drop_app 17 _ _ (packS_length 17 r.copyright),
    drop_app 3 [0, 0, 0] _ rfl,
    take_app 4 _ _ (packU32R_length r.timestamp),
    drop_app 4 _ _ (packU32R_length r.timestamp),
    take_app 7 _ _ (packS_length 7 r.encryption),
    drop_app 7 _ _ (packS_length 7 r.encryption),
    drop_app 1 [0] _ rfl,
    take_app 4 _ _ (packU32R_length r.key_length),
    drop_app 4 _ _ (packU32R_length r.key_length),
    take_app 4 _ _ (packU32R_length r.version),
    drop_app 4 _ _ (packU32R_length r.version),
    List.take_of_length_le (Nat.le_of_eq (packS_length 5 r.compression)),
    decodeStrField_pos u1, decodeStrField_pos u2, decodeStrField_pos u3,
    decodeStrField_pos u4, decodeStrField_pos u5, decodeStrField_pos u6,
    unpackU32_packU32R hfs, unpackU32_packU32R hts, unpackU32_packU32R hkl,
    unpackU32_packU32R hvr]
  rfl

/-! The package pipeline. -/

theorem ok_bind {ε α β : Type} (a : α) (f : α → Except ε β) :
    (Except.ok a >>= f : Except ε β) = f a := rfl

theorem orErr_some {α : Type} (a : α) (e : PkgErr) : orErr (some a) e = .ok a := rfl

theorem defCfg_compression (k : Bytes) : (defCfg k).compression = "zstd" := rfl

theorem deflate_zstd (C : ExtCodecs) (b : Bytes) :
    deflate C b "zstd" = some (C.zstd.comp b) := by
  simp [deflate]

theorem inflate_zstd (C : ExtCodecs) (b : Bytes) :
    inflate C b "zstd" = C.zstd.decomp b := by
  simp [inflate]

theorem pyReturn_of_not_utf8 {p : Bytes} (h : validUtf8 p = false) :
    pyReturn p = .bytes p := by
  unfold pyReturn
  rw [h]
  rfl

theorem decrypt_gcm_env {P : AesPrim} (hP : PrimLaws P) (k n p : Bytes)
    (hn : WF n) (hp : WF p) :
    decrypt_data P k
      ⟨bytesToHex (P.gcmE k n p), some (bytesToHex (P.gcmT k n (P.gcmE k n p))),
        bytesToHex n⟩ AES_GCM = some (pyReturn p) :=
  decrypt_encrypt_gcm hP k n p hn hp

theorem encrypt_defCfg (X : Exts) (k nonce : Bytes) (D : BlobSet) :
    _encrypt X (defCfg k) nonce D =
      some (X.pk.dumpE
        ⟨bytesToHex (X.prim.gcmE k nonce (X.pk.dumpB D)),
         some (bytesToHex (X.prim.gcmT k nonce (X.prim.gcmE k nonce (X.pk.dumpB D)))),
         bytesToHex nonce⟩) := rfl

theorem save_defCfg (X : Exts) (k nonce : Bytes) (now : Nat) (D : BlobSet) (path : String)
    (eb : Bytes) (heb : _encrypt X (defCfg k) nonce D = some eb)
    (hsmall : eb.length < 2 ^ 32) (hnow : now < 2 ^ 32) (hkl : k.length < 2 ^ 32) :
    save X (defCfg k) nonce now D path =
      some (hbOf (rawHeaderOf k now path eb) ++ X.codecs.zstd.comp eb) := by
  unfold save
  rw [heb]
  simp only [Option.bind_eq_bind, Option.some_bind]
  have hch : _create_header (defCfg k) now path eb =
      some (hbOf (rawHeaderOf k now path eb)) := by
    show headerBytes (rawHeaderOf k now path eb) = _
    exact headerBytes_some hsmall hnow hkl (show (2 : Nat) < 2 ^ 32 by norm_num)
  rw [hch]
  simp only [Option.some_bind]
  rw [defCfg_compression, deflate_zstd]
  simp only [Option.some_bind]
  rfl

theorem info_hbOf {r : RawHeader} (rest : Bytes)
    (hfs : r.filesize < 2 ^ 32) (hts : r.timestamp < 2 ^ 32)
    (hkl : r.key_length < 2 ^ 32) (hvr : r.version < 2 ^ 32)
    (u1 : validUtf8 (packS 16 r.filename) = true)
    (u2 : validUtf8 (packS 22 r.fileinfo) = true)
    (u3 : validUtf8 (packS 16 r.author) = true)
    (u4 : validUtf8 (packS 17 r.copyright) = true)
    (u5 : validUtf8 (packS 7 r.encryption) = true)
    (u6 : validUtf8 (packS 5 r.compression) = true) :
    info (hbOf r ++ rest) = some (decodedOf r) := by
  unfold info headerSize
  rw [if_pos (by rw [List.length_append, hbOf_length]; omega),
    take_app 105 _ _ (hbOf_length r)]
  exact unpackHeader_hbOf hfs hts hkl hvr u1 u2 u3 u4 u5 u6

theorem check_hbOf_default (k : Bytes) (now : Nat) (path : String) (eb rest : Bytes)
    (hinfo : info (hbOf (rawHeaderOf k now path eb) ++ rest) =
      some (decodedOf (rawHeaderOf k now path eb))) :
    _check (defCfg k) (hbOf (rawHeaderOf k now path eb) ++ rest) = .ok false := by
  unfold _check
  rw [hinfo]
  rfl

theorem read_after_save (X : Exts) (hP : PrimLaws X.prim) (hPk : PickleLaws X.pk)
    (hz : ∀ b, X.codecs.zstd.decomp (X.codecs.zstd.comp b) = some b)
    (k nonce : Bytes) (hn : WF nonce) (now : Nat) (hnow : now < 2 ^ 32)
    (hkl : k.length < 2 ^ 32) (D : BlobSet) (path : String)
    (hname : validUtf8 (packS 16 (utf8chars (pathFilename path))) = true)
    (eb : Bytes) (heb : _encrypt X (defCfg k) nonce D = some eb)
    (hsmall : eb.length < 2 ^ 32)
    (hshrink : (X.codecs.zstd.comp eb).length ≤ eb.length) :
    save X (defCfg k) nonce now D path =
      some (hbOf (rawHeaderOf k now path eb) ++ X.codecs.zstd.comp eb)
    ∧ read X (defCfg k) (hbOf (rawHeaderOf k now path eb) ++ X.codecs.zstd.comp eb) =
      Except.ok D := by
  refine ⟨save_defCfg X k nonce now D path eb heb hsmall hnow hkl, ?_⟩
  have hinfo : info (hbOf (rawHeaderOf k now path eb) ++ X.codecs.zstd.comp eb) =
      some (decodedOf (rawHeaderOf k now path eb)) :=
    @info_hbOf (rawHeaderOf k now path eb) (X.codecs.zstd.comp eb) hsmall hnow hkl
      (show (2 : Nat) < 2 ^ 32 by norm_num) hname
      (show validUtf8 (packS 22 (strBytes "Encrypted data package")) = true by decide)
      (show validUtf8 (packS 16 (strBytes "Valky Fischer")) = true by decide)
      (show validUtf8 (packS 17 (strBytes "Valky ⓒ 2023")) = true by decide)
      (show validUtf8 (packS 7 (strBytes "AES-GCM")) = true by decide)
      (show validUtf8 (packS 5 (strBytes "zstd")) = true by decide)
  have hrv : _read_vpk (hbOf (rawHeaderOf k now path eb) ++ X.codecs.zstd.comp eb) =
      some (X.codecs.zstd.comp eb) := by
    unfold _read_vpk headerSize
    rw [hinfo]
    show some (((hbOf (rawHeaderOf k now path eb) ++ X.codecs.zstd.comp eb).drop 105).take
      eb.length) = _
    rw [drop_app 105 _ _ (hbOf_length _), List.take_of_length_le hshrink]
  have hinfl : inflate X.codecs (X.codecs.zstd.comp eb) (defCfg k).compression = some eb := by
    rw [defCfg_compression, inflate_zstd]
    exact hz eb
  have hdec : _decrypt X (defCfg k) eb = some D := by
    rw [encrypt_defCfg X k nonce D] at heb
    have hebv := Option.some.inj heb
    subst hebv
    unfold _decrypt
    rw [hPk.loadE_dumpE]
    simp only [Option.bind_eq_bind, Option.some_bind]
    rw [show MODES_D (defCfg k).encryption = some AES_GCM from rfl]
    simp only [Option.some_bind]
    rw [show (defCfg k).argon_key = k from rfl]
    rw [decrypt_gcm_env hP k nonce (X.pk.dumpB D) hn (hPk.dumpB_wf D)]
    simp only [Option.some_bind]
    rw [pyReturn_of_not_utf8 (hPk.dumpB_not_utf8 D)]
    show X.pk.loadB (X.pk.dumpB D) = some D
    exact hPk.loadB_dumpB D
  unfold read
  rw [check_hbOf_default k now path eb _ hinfo]
  simp only [ok_bind]
  rw [hrv, orErr_some]
  simp only [ok_bind]
  rw [hinfl, orErr_some]
  simp only [ok_bind]
  rw [hdec, orErr_some]

/-! `dict.update` semantics. -/

theorem lookup_append (l1 l2 : BlobSet) (key : String) :
    List.lookup key (l1 ++ l2) =
      match List.lookup key l1 with
      | some v => some v
      | none => List.lookup key l2 := by
  induction l1 with
  | nil => rfl
  | cons kv tl ih =>
    obtain ⟨a, w⟩ := kv
    cases hab : (key == a) <;> simp [List.lookup, hab, ih]

theorem lookup_map_entry (d : BlobSet) (f : String → Bytes → Bytes) (key : String) :
    List.lookup key (d.map (fun kv => (kv.1, f kv.1 kv.2))) =
      (List.lookup key d).map (f key) := by
  induction d with
  | nil => rfl
  | cons kv tl ih =>
    obtain ⟨a, w⟩ := kv
    cases hab : (key == a)
    · simp [List.lookup, hab, ih]
    · have ha : key = a := by simpa using hab
      subst ha
      simp [List.lookup, hab]

theorem lookup_filter_isNone (p d : BlobSet) (key : String) :
    List.lookup key (p.filter (fun kv => (List.lookup kv.1 d).isNone)) =
      if (List.lookup key d).isSome then none else List.lookup key p := by
  induction p with
  | nil =>
    cases hks : (List.lookup key d).isSome <;> simp [List.lookup, hks]
  | cons kv tl ih =>
    obtain ⟨a, w⟩ := kv
    rw [List.filter_cons]
    cases hab : (key == a)
    · cases hpred : (List.lookup a d).isNone <;>
        simp [List.lookup, hab, hpred, ih]
    · have ha : key = a := by simpa using hab
      subst ha
      cases hpred : (List.lookup key d).isNone
      · have hs : (List.lookup key d).isSome = true := by
          cases h : List.lookup key d
          · rw [h] at hpred
            exact absurd hpred (by simp)
          · rfl
        simp [List.lookup, hab, hpred, ih, hs]
      · have hs : (List.lookup key d).isSome = false := by
          cases h : List.lookup key d
          · rfl
          · rw [h] at hpred
            exact absurd hpred (by simp)
        simp [List.lookup, hab, hpred, hs]

theorem dictUpdate_lookup (d p : BlobSet) (key : String) :
    List.lookup key (dictUpdate d p) =
      match List.lookup key d with
      | some v => some ((List.lookup key p).getD v)
      | none => List.lookup key p := by
  unfold dictUpdate
  rw [lookup_append, lookup_map_entry d (fun kk vv => (List.lookup kk p).getD vv) key,
    lookup_filter_isNone]
  cases hd : List.lookup key d <;> simp [hd]

theorem check_expand (cfg : PkgConfig) (file : Bytes) (h : HeaderFields)
    (hinfo : info file = some h) :
    _check cfg file =
      if h.encryption ≠ strBytes cfg.encryption then Except.error PkgErr.encryption
      else if h.compression ≠ strBytes cfg.compression then Except.error PkgErr.compressor
      else Except.ok (h.version != cfg.version) := by
  unfold _check
  rw [hinfo]

/-- C5: reading back an archive just saved from a `BlobSet` with the
same pipeline configuration returns the mapping entry-for-entry.  The
external collaborators satisfy their interface laws; the saved envelope
fits a `u32` and the configured codec does not expand it (true of the
real pipeline, whose zstd input is hex text); the archive name encodes
to valid UTF-8 after width truncation. -/
theorem c5_archive_roundtrip (X : Exts) (hP : PrimLaws X.prim) (hPk : PickleLaws X.pk)
    (hz : ∀ b, X.codecs.zstd.decomp (X.codecs.zstd.comp b) = some b)
    (k nonce : Bytes) (hn : WF nonce) (now : Nat) (hnow : now < 2 ^ 32)
    (hkl : k.length < 2 ^ 32) (D : BlobSet) (path : String)
    (hname : validUtf8 (packS 16 (utf8chars (pathFilename path))) = true)
    (eb : Bytes) (heb : _encrypt X (defCfg k) nonce D = some eb)
    (hsmall : eb.length < 2 ^ 32)
    (hshrink : (X.codecs.zstd.comp eb).length ≤ eb.length) :
    ∃ file, save X (defCfg k) nonce now D path = some file ∧
      read X (defCfg k) file = Except.ok D :=
  ⟨hbOf (rawHeaderOf k now path eb) ++ X.codecs.zstd.comp eb,
    (read_after_save X hP hPk hz k nonce hn now hnow hkl D path hname eb heb
      hsmall hshrink).1,
    (read_after_save X hP hPk hz k nonce hn now hnow hkl D path hname eb heb
      hsmall hshrink).2⟩

/-- C5 witness: the archive round trip evaluated on the example
`BlobSet` `{"a.txt": b"hello", "dir/b.bin": b"\x00\x01"}` with the
concrete collaborators. -/
theorem c5_archive_roundtrip_witness :
    ∃ file, save toyExts (defCfg kW) [5] 1700000000 exampleBlobs "out.vpk" = some file ∧
      read toyExts (defCfg kW) file = Except.ok exampleBlobs :=
  c5_archive_roundtrip toyExts toyPrim_laws toyPickle_laws (fun _ => rfl) kW [5]
    (by decide) 1700000000 (by norm_num) (by decide) exampleBlobs "out.vpk" (by decide)
    _ (encrypt_defCfg toyExts kW [5] exampleBlobs) (by decide) (Nat.le.refl)

/-- C1 (amended): for every archive produced by `save`, the `filesize`
field stored in the fixed-width header equals the byte length of the
pickled encrypted envelope BEFORE compression (`len(encrypted_data)`),
and the header is built only after this value is computed — but the
bytes written after the header are the COMPRESSED envelope, whose
length generally differs, so the stored size equals the trailing byte
count only when the codec preserves length. -/
theorem c1_payload_size_amended (X : Exts) (k nonce : Bytes) (now : Nat)
    (hnow : now < 2 ^ 32) (hkl : k.length < 2 ^ 32) (D : BlobSet) (path : String)
    (hname : validUtf8 (packS 16 (utf8chars (pathFilename path))) = true)
    (eb : Bytes) (heb : _encrypt X (defCfg k) nonce D = some eb)
    (hsmall : eb.length < 2 ^ 32) :
    save X (defCfg k) nonce now D path =
      some (hbOf (rawHeaderOf k now path eb) ++ X.codecs.zstd.comp eb)
    ∧ info (hbOf (rawHeaderOf k now path eb) ++ X.codecs.zstd.comp eb) =
        some (decodedOf (rawHeaderOf k now path eb))
    ∧ (decodedOf (rawHeaderOf k now path eb)).filesize = eb.length
    ∧ (hbOf (rawHeaderOf k now path eb) ++ X.codecs.zstd.comp eb).drop headerSize =
        X.codecs.zstd.comp eb := by
  refine ⟨save_defCfg X k nonce now D path eb heb hsmall hnow hkl, ?_, rfl, ?_⟩
  · exact @info_hbOf (rawHeaderOf k now path eb) (X.codecs.zstd.comp eb) hsmall hnow hkl
      (show (2 : Nat) < 2 ^ 32 by norm_num) hname
      (show validUtf8 (packS 22 (strBytes "Encrypted data package")) = true by decide)
      (show validUtf8 (packS 16 (strBytes "Valky Fischer")) = true by decide)
      (show validUtf8 (packS 17 (strBytes "Valky ⓒ 2023")) = true by decide)
      (show validUtf8 (packS 7 (strBytes "AES-GCM")) = true by decide)
      (show validUtf8 (packS 5 (strBytes "zstd")) = true by decide)
  · show _ = _
    unfold headerSize
    exact drop_app 105 _ _ (hbOf_length _)

/-- C1 (amended) witness: the amended statement evaluated with the
concrete collaborators on the example `BlobSet`. -/
theorem c1_payload_size_amended_witness :
    save toyExts (defCfg kW) [5] 1700000000 exampleBlobs "out.vpk" =
      some (hbOf (rawHeaderOf kW 1700000000 "out.vpk"
          ((_encrypt toyExts (defCfg kW) [5] exampleBlobs).getD [])) ++
        toyExts.codecs.zstd.comp ((_encrypt toyExts (defCfg kW) [5] exampleBlobs).getD []))
    ∧ info (hbOf (rawHeaderOf kW 1700000000 "out.vpk"
          ((_encrypt toyExts (defCfg kW) [5] exampleBlobs).getD [])) ++
        toyExts.codecs.zstd.comp ((_encrypt toyExts (defCfg kW) [5] exampleBlobs).getD [])) =
        some (decodedOf (rawHeaderOf kW 1700000000 "out.vpk"
          ((_encrypt toyExts (defCfg kW) [5] exampleBlobs).getD [])))
    ∧ (decodedOf (rawHeaderOf kW 1700000000 "out.vpk"
          ((_encrypt toyExts (defCfg kW) [5] exampleBlobs).getD []))).filesize =
        ((_encrypt toyExts (defCfg kW) [5] exampleBlobs).getD []).length
    ∧ (hbOf (rawHeaderOf kW 1700000000 "out.vpk"
          ((_encrypt toyExts (defCfg kW) [5] exampleBlobs).getD [])) ++
        toyExts.codecs.zstd.comp ((_encrypt toyExts (defCfg kW) [5] exampleBlobs).getD [])).drop
          headerSize =
        toyExts.codecs.zstd.comp ((_encrypt toyExts (defCfg kW) [5] exampleBlobs).getD []) :=
  c1_payload_size_amended toyExts kW [5] 1700000000 (by norm_num) (by decide)
    exampleBlobs "out.vpk" (by decide) _ (by decide) (by decide)

/-- C1 counterexample: with a lawful round-tripping codec that expands
its input by one byte (as real compressors can), `save` succeeds, the
header parses, and the stored `filesize` does NOT equal the number of
bytes following the header — because the code stores
`len(encrypted_data)` computed before compression while it writes the
compressed bytes after the header. -/
theorem c1_counterexample :
    ((save expandExts (defCfg kW) [5] 1700000000 exampleBlobs "out.vpk").bind
      (fun file => (info file).map
        (fun h => decide (h.filesize = (file.drop headerSize).length)))) = some false := by
  decide

/-- C2 (the code evaluated at the failing input): `_create_header` with
the 17-byte archive name `AAAAAAAAAAAAAAAAA` SUCCEEDS — no
`HeaderFieldTooLong`-kind error is raised — and the name decoded back
from the packed header is the silent 16-byte truncation, not the
original: `struct.pack`'s `s` format truncates. -/
theorem c2_header_truncates_silently :
    (_create_header (defCfg kW) 1700000000 "AAAAAAAAAAAAAAAAA.vpk" [5, 6, 7]).map
      (fun hb => (unpackHeader hb).map (fun h => h.filename)) =
      some (some (strBytes "AAAAAAAAAAAAAAAA"))
    ∧ strBytes "AAAAAAAAAAAAAAAA" ≠ strBytes "AAAAAAAAAAAAAAAAA" := by
  constructor
  · decide
  · decide

/-- C6: with a parsed header, `_check` raises the fatal
encryption-mismatch error when the recorded encryption mode name
differs from the configured one; with matching encryption it raises the
fatal compression-mismatch error when the recorded codec name differs;
and when both match it never raises — a differing `format_version` only
sets the logged-warning flag carried in the returned value. -/
theorem c6_check_mismatches (cfg : PkgConfig) (file : Bytes) (h : HeaderFields)
    (hinfo : info file = some h) :
    (h.encryption ≠ strBytes cfg.encryption → _check cfg file = .error .encryption)
    ∧ (h.encryption = strBytes cfg.encryption →
        h.compression ≠ strBytes cfg.compression → _check cfg file = .error .compressor)
    ∧ (h.encryption = strBytes cfg.encryption → h.compression = strBytes cfg.compression →
        _check cfg file = .ok (h.version != cfg.version)) := by
  rw [check_expand cfg file h hinfo]
  refine ⟨fun hne => ?_, fun he hc => ?_, fun he hc => ?_⟩
  · rw [if_pos hne]
  · rw [if_neg (not_not_intro he), if_pos hc]
  · rw [if_neg (not_not_intro he), if_neg (not_not_intro hc)]

/-- C6 witness: opening a header recorded with `AES-CTR` under a
pipeline configured for `AES-GCM` raises the encryption-mismatch
error. -/
theorem c6_check_mismatches_witness :
    _check (defCfg kW) (hbOf cxHeader) = .error .encryption :=
  (c6_check_mismatches (defCfg kW) (hbOf cxHeader) (decodedOf cxHeader) (by decide)).1
    (by decide)

/-- C9: `update(P, path)` on an archive decoding to `D` saves back the
`dict.update` merge: every key of the patch maps to its patch value
(overwriting), every other key keeps its value from `D`, and no key is
removed; the updated archive decodes to exactly that merge. -/
theorem c9_update_semantics (X : Exts) (hP : PrimLaws X.prim) (hPk : PickleLaws X.pk)
    (hz : ∀ b, X.codecs.zstd.decomp (X.codecs.zstd.comp b) = some b)
    (k nonce : Bytes) (hn : WF nonce) (now : Nat) (hnow : now < 2 ^ 32)
    (hkl : k.length < 2 ^ 32) (D P' : BlobSet) (file : Bytes) (path : String)
    (hread : read X (defCfg k) file = Except.ok D)
    (hname : validUtf8 (packS 16 (utf8chars (pathFilename path))) = true)
    (eb : Bytes) (heb : _encrypt X (defCfg k) nonce (dictUpdate D P') = some eb)
    (hsmall : eb.length < 2 ^ 32)
    (hshrink : (X.codecs.zstd.comp eb).length ≤ eb.length) :
    (∃ newfile, update X (defCfg k) nonce now P' file path = Except.ok newfile ∧
      read X (defCfg k) newfile = Except.ok (dictUpdate D P'))
    ∧ (∀ key v, List.lookup key P' = some v →
        List.lookup key (dictUpdate D P') = some v)
    ∧ (∀ key, List.lookup key P' = none →
        List.lookup key (dictUpdate D P') = List.lookup key D)
    ∧ (∀ key, (List.lookup key D).isSome →
        (List.lookup key (dictUpdate D P')).isSome) := by
  have h := read_after_save X hP hPk hz k nonce hn now hnow hkl (dictUpdate D P') path
    hname eb heb hsmall hshrink
  refine ⟨⟨hbOf (rawHeaderOf k now path eb) ++ X.codecs.zstd.comp eb, ?_, h.2⟩, ?_, ?_, ?_⟩
  · unfold update
    rw [hread]
    simp only [ok_bind]
    rw [h.1, orErr_some]
  · intro key v hv
    rw [dictUpdate_lookup]
    cases hd : List.lookup key D <;> simp [hv]
  · intro key hv
    rw [dictUpdate_lookup]
    cases hd : List.lookup key D <;> simp [hv]
  · intro key hv
    rw [dictUpdate_lookup]
    cases hd : List.lookup key D
    · rw [hd] at hv
      exact absurd hv (by simp)
    · cases hp : List.lookup key P' <;> simp

/-- C9 witness: updating the example archive with `{"new.txt": b"x"}`
yields an archive containing `"a.txt"` unchanged and `"new.txt"`. -/
theorem c9_update_semantics_witness :
    (∃ newfile, update toyExts (defCfg kW) [5] 1700000000 patchW
        ((save toyExts (defCfg kW) [5] 1700000000 exampleBlobs "out.vpk").getD [])
        "out.vpk" = Except.ok newfile
      ∧ read toyExts (defCfg kW) newfile = Except.ok (dictUpdate exampleBlobs patchW))
    ∧ (∀ key v, List.lookup key patchW = some v →
        List.lookup key (dictUpdate exampleBlobs patchW) = some v)
    ∧ (∀ key, List.lookup key patchW = none →
        List.lookup key (dictUpdate exampleBlobs patchW) = List.lookup key exampleBlobs)
    ∧ (∀ key, (List.lookup key exampleBlobs).isSome →
        (List.lookup key (dictUpdate exampleBlobs patchW)).isSome) :=
  c9_update_semantics toyExts toyPrim_laws toyPickle_laws (fun _ => rfl) kW [5]
    (by decide) 1700000000 (by norm_num) (by decide) exampleBlobs patchW
    ((save toyExts (defCfg kW) [5] 1700000000 exampleBlobs "out.vpk").getD [])
    "out.vpk" (by decide) (by decide) _
    (encrypt_defCfg toyExts kW [5] (dictUpdate exampleBlobs patchW)) (by decide)
    (Nat.le.refl)

end Valkyrie

